import Mathlib

/-!
# Verification of the slotify ad-insertion pipeline

Shallow embedding, in Lean 4, of the core of `backend/ad_inserter`
(`recommend.py`, `mix.py`, `llm.py`), together with theorems settling the
frozen claims about the natural-language specification of the repository.

Modelling conventions:
* Python `float` arithmetic is modelled by exact rationals (`ℚ`); decimal
  literals such as `0.6` become the exact rationals they denote.
* A pydub `AudioSegment` is modelled at millisecond granularity as a
  `List ℚ` of sample values (one per millisecond).  Slicing is
  `take`/`drop`, concatenation is `++`, `silent n` is `replicate n 0`,
  and `len` is `List.length`.  All claims about `mix.py` concern durations
  or exact silence, which this abstraction tracks exactly; pydub's
  floating-point gain/fade curves and saturation are not tracked, so
  gain-like operations are modelled as length-preserving pointwise maps.
* The dB → linear-amplitude conversion used by `apply_gain` is irrational
  (`10^(db/20)`); it is passed as an explicit parameter `gainOfDb`.
* The normalized-RMS measurement of a window of the host recording
  (`_rms_normalized(audio[a:b])`, a square root of sample data) is passed
  as an explicit oracle `rmsw : ℕ → ℕ → ℚ`; the Python-side clamping of
  the window bounds in `_rms_window` is embedded explicitly.  For an empty
  recording every window is the empty slice, whose `_rms_normalized` is
  `0.0` by the source, so the oracle for an empty recording is `fun _ _ => 0`.
-/

namespace Slotify

/-! ## recommend.py: candidates, features, scoring -/

/-- `recommend.Candidate` dataclass (recommend.py lines 17-27). -/
structure Candidate where
  insertion_ms : ℤ
  silence_ms : Option ℤ
  rms_before : ℚ
  rms_after : ℚ
  beat_aligned : Bool
  notes : String := ""
  boundary : Bool := false
  rms_center : Option ℚ := none
  score : ℚ := 0
  deriving DecidableEq, Repr

/-- `_clamp(value, min_val, max_val)` (recommend.py lines 30-31). -/
def pclamp (value minVal maxVal : ℚ) : ℚ :=
  max minVal (min maxVal value)

/-- `_quietness_from_rms(rms)` (recommend.py lines 47-49). -/
def quietness_from_rms (rms : ℚ) : ℚ :=
  pclamp (1 - min 1 (rms * (7/2))) 0 1

/-- `_rms_window(audio, start_ms, end_ms)` (recommend.py lines 41-44):
the bound clamping is explicit, the RMS of the clamped slice is the
oracle `rmsw`. -/
def rms_window (rmsw : ℕ → ℕ → ℚ) (startMs endMs : ℤ) : ℚ :=
  let s := max 0 startMs
  let e := max s endMs
  rmsw s.toNat e.toNat

/-- `_score_podcast(candidate, duration_ms)` (recommend.py lines 189-204). -/
def score_podcast (c : Candidate) (durationMs : ℤ) : ℚ :=
  let silenceMs : ℤ := c.silence_ms.getD 0
  let silenceScore : ℚ := (min silenceMs 1500 : ℤ) / 1500
  let quietBefore := quietness_from_rms c.rms_before
  let quietAfter := quietness_from_rms c.rms_after
  let score0 : ℚ := 45 * silenceScore + 20 * quietBefore + 10 * quietAfter
  let score1 : ℚ := if c.boundary then score0 + 12 else score0
  let score2 : ℚ := score1 - 10 * (1 - quietAfter)
  let score3 : ℚ := if c.insertion_ms < 5000 then score2 - 25 else score2
  let score4 : ℚ := if durationMs - c.insertion_ms < 5000 then score3 - 25 else score3
  pclamp score4 0 100

/-- `_score_song(candidate, duration_ms)` (recommend.py lines 207-219). -/
def score_song (c : Candidate) (durationMs : ℤ) : ℚ :=
  let quietBefore := quietness_from_rms c.rms_before
  let quietAfter := quietness_from_rms c.rms_after
  let valley := quietness_from_rms (c.rms_center.getD 0)
  let score0 : ℚ := 40 * (if c.beat_aligned then 1 else 0)
  let score1 : ℚ := score0 + 30 * valley + 15 * quietBefore + 10 * quietAfter
  let score2 : ℚ := if c.insertion_ms < 5000 then score1 - 20 else score1
  let score3 : ℚ := if durationMs - c.insertion_ms < 5000 then score2 - 20 else score2
  pclamp score3 0 100

/-- Round-half-to-even on rationals: semantics of Python's `round` (as
applied via `int(round(p))` to the nonnegative linspace points in
`_fallback_candidates`; the float representation error of `np.linspace`
is idealized away, no claim depends on the exact fallback positions). -/
def roundHalfEven (q : ℚ) : ℤ :=
  let f := ⌊q⌋
  let r := q - f
  if r < 1/2 then f
  else if 1/2 < r then f + 1
  else if f % 2 = 0 then f else f + 1

/-- `_fallback_candidates(duration_ms, count=12)` (recommend.py lines 52-60).
`int(duration_ms * 0.15)` truncates a nonnegative float product toward
zero, i.e. takes the floor; `np.linspace(start, end, num=count)` is the
arithmetic progression `start + i*(end-start)/(count-1)`. -/
def fallback_candidates (durationMs : ℤ) (count : ℕ := 12) : List ℤ :=
  if durationMs ≤ 0 then [0]
  else
    let start : ℤ := ⌊(durationMs : ℚ) * (15/100)⌋
    let stop : ℤ := ⌊(durationMs : ℚ) * (85/100)⌋
    if stop ≤ start then [durationMs / 2]
    else
      (List.range count).map
        (fun i => roundHalfEven ((start : ℚ) + i * ((stop : ℚ) - start) / ((count : ℚ) - 1)))

/-- One silence-derived podcast candidate (recommend.py lines 74-88): the
insertion point is the midpoint of the silent range, computed with
Python's floor division. -/
def podcastSilenceCand (rmsw : ℕ → ℕ → ℚ) (range : ℕ × ℕ) : Candidate :=
  let insertMs : ℤ := ((range.1 + range.2) / 2 : ℕ)
  { insertion_ms := insertMs
    silence_ms := some (max 0 ((range.2 : ℤ) - range.1))
    rms_before := rms_window rmsw (insertMs - 800) insertMs
    rms_after := rms_window rmsw insertMs (insertMs + 800)
    beat_aligned := false
    notes := "silence" }

/-- One fallback podcast candidate (recommend.py lines 95-104). -/
def podcastFallbackCand (rmsw : ℕ → ℕ → ℚ) (insertMs : ℤ) : Candidate :=
  { insertion_ms := insertMs
    silence_ms := some 0
    rms_before := rms_window rmsw (insertMs - 800) insertMs
    rms_after := rms_window rmsw insertMs (insertMs + 800)
    beat_aligned := false
    notes := "fallback" }

/-- The `for insert_ms in _fallback_candidates(...)` padding loop of
`_podcast_candidates` (recommend.py lines 92-107): skip points already
present, append as a fallback candidate otherwise, stop once 12
candidates exist. -/
def podcastPadLoop (rmsw : ℕ → ℕ → ℚ) :
    List ℤ → List Candidate → List ℤ → List Candidate
  | [], cands, _ => cands
  | p :: rest, cands, existing =>
    if p ∈ existing then podcastPadLoop rmsw rest cands existing
    else
      let cands' := cands ++ [podcastFallbackCand rmsw p]
      if 12 ≤ cands'.length then cands'
      else podcastPadLoop rmsw rest cands' (p :: existing)

/-- Key used when trimming to the 30 longest silences
(recommend.py lines 110-114): `cand.silence_ms or 0`. -/
def silenceKey (c : Candidate) : ℤ := c.silence_ms.getD 0

/-- `_podcast_candidates(audio)` (recommend.py lines 71-116), with the
result of `pydub.silence.detect_silence` and the RMS oracle of the audio
as inputs.  Sorting uses a stable merge sort, as Python's `sorted`; for
`reverse=True` Python keeps the original relative order of equal keys,
which the total relation `silenceKey b ≤ silenceKey a` reproduces. -/
def podcast_candidates (silenceRanges : List (ℕ × ℕ)) (durationMs : ℤ)
    (rmsw : ℕ → ℕ → ℚ) : List Candidate :=
  let cands := silenceRanges.map (podcastSilenceCand rmsw)
  let cands :=
    if cands.length < 10 then
      podcastPadLoop rmsw (fallback_candidates durationMs) cands
        (cands.map (·.insertion_ms))
    else cands
  if 30 < cands.length then
    ((cands.mergeSort (fun a b => silenceKey b ≤ silenceKey a)).take 30).mergeSort
      (fun a b => a.insertion_ms ≤ b.insertion_ms)
  else cands

/-- One beat/energy song candidate (recommend.py lines 147-164). -/
def songAnalysisCand (rmsw : ℕ → ℕ → ℚ) (beatTimesMs : List ℤ) (insertMs : ℤ) :
    Candidate :=
  { insertion_ms := insertMs
    silence_ms := none
    rms_before := rms_window rmsw (insertMs - 800) insertMs
    rms_after := rms_window rmsw insertMs (insertMs + 800)
    rms_center := some (rms_window rmsw (insertMs - 200) (insertMs + 200))
    beat_aligned :=
      !beatTimesMs.isEmpty &&
        decide (((beatTimesMs.map (fun b => (insertMs - b).natAbs)).foldr min 81) ≤ 80)
    notes :=
      if !beatTimesMs.isEmpty &&
          decide (((beatTimesMs.map (fun b => (insertMs - b).natAbs)).foldr min 81) ≤ 80)
      then "beat" else "energy" }

/-- One fallback song candidate (recommend.py lines 170-180). -/
def songFallbackCand (rmsw : ℕ → ℕ → ℚ) (insertMs : ℤ) : Candidate :=
  { insertion_ms := insertMs
    silence_ms := none
    rms_before := rms_window rmsw (insertMs - 800) insertMs
    rms_after := rms_window rmsw insertMs (insertMs + 800)
    rms_center := some (rms_window rmsw (insertMs - 200) (insertMs + 200))
    beat_aligned := false
    notes := "fallback" }

/-- The padding loop of `_song_candidates` (recommend.py lines 165-183). -/
def songPadLoop (rmsw : ℕ → ℕ → ℚ) :
    List ℤ → List Candidate → List ℤ → List Candidate
  | [], cands, _ => cands
  | p :: rest, cands, existing =>
    if p ∈ existing then songPadLoop rmsw rest cands existing
    else
      let cands' := cands ++ [songFallbackCand rmsw p]
      if 12 ≤ cands'.length then cands'
      else songPadLoop rmsw rest cands' (p :: existing)

/-- `_song_candidates(path, audio)` (recommend.py lines 142-186), with the
`SongAnalysis` results (`candidates_ms`, `beat_times_ms`) and the RMS
oracle as inputs.  `song.candidates_ms or _fallback_candidates(...)`
replaces an empty list by the fallback points. -/
def song_candidates (songCandidatesMs beatTimesMs : List ℤ) (durationMs : ℤ)
    (rmsw : ℕ → ℕ → ℚ) : List Candidate :=
  let candidatesMs :=
    if songCandidatesMs.isEmpty then fallback_candidates durationMs
    else songCandidatesMs
  let cands := candidatesMs.map (songAnalysisCand rmsw beatTimesMs)
  let cands :=
    if cands.length < 10 then
      songPadLoop rmsw (fallback_candidates durationMs) cands
        (cands.map (·.insertion_ms))
    else cands
  if 30 < cands.length then cands.take 30 else cands

/-! ## recommend.py: boost/cap post-processing and selection -/

/-- Python `max` of a list of scores (only ever applied to a non-empty
list, as in recommend.py line 333). -/
def listMax : List ℚ → ℚ
  | [] => 0
  | [x] => x
  | x :: xs => max x (listMax xs)

/-- The boost/cap post-processing of `recommend_slots`
(recommend.py lines 332-339), acting on the list of candidate scores
(the in-place mutation of `cand.score` becomes a map). -/
def boostCap (scores : List ℚ) : List ℚ :=
  if scores.isEmpty then scores
  else
    let maxScore := listMax scores
    let scores' :=
      if maxScore < 65 then
        scores.map (fun s => pclamp (s + (65 - maxScore)) 0 100)
      else scores
    scores'.map (fun s => min s 95)

/-- The sort relation of `_select_top` (recommend.py lines 225-228):
Python's ascending lexicographic order on the key `(-score, insertion_ms)`. -/
def selKey (a b : Candidate) : Bool :=
  decide (b.score < a.score ∨ (a.score = b.score ∧ a.insertion_ms ≤ b.insertion_ms))

/-- The greedy acceptance loop of `_select_top`
(recommend.py lines 229-234). -/
def selectGreedy (topN : ℕ) (minSepMs : ℤ) :
    List Candidate → List Candidate → List Candidate
  | [], sel => sel
  | c :: rest, sel =>
    let sel' :=
      if ∀ s ∈ sel, minSepMs ≤ |c.insertion_ms - s.insertion_ms| then sel ++ [c]
      else sel
    if topN ≤ sel'.length then sel'
    else selectGreedy topN minSepMs rest sel'

/-- The backfill loop of `_select_top` (recommend.py lines 236-240):
`candidate not in selected` is dataclass value equality. -/
def selectBackfill (topN : ℕ) :
    List Candidate → List Candidate → List Candidate
  | [], sel => sel
  | c :: rest, sel =>
    let sel' := if c ∈ sel then sel else sel ++ [c]
    if topN ≤ sel'.length then sel'
    else selectBackfill topN rest sel'

/-- `_select_top(candidates, top_n=3, min_sep_ms=6000)`
(recommend.py lines 222-241). -/
def select_top (candidates : List Candidate) (topN : ℕ := 3)
    (minSepMs : ℤ := 6000) : List Candidate :=
  let ordered := candidates.mergeSort selKey
  let selected := selectGreedy topN minSepMs ordered []
  if selected.length < topN then selectBackfill topN ordered selected
  else selected

/-! ## recommend.py: pros/cons derivation -/

/-- `_podcast_pros_cons(candidate, duration_ms)`
(recommend.py lines 244-278); returns `(pros, cons, rationale)`. -/
def podcast_pros_cons (c : Candidate) (durationMs : ℤ) :
    List String × List String × String :=
  let silenceMs : ℤ := c.silence_ms.getD 0
  let pros : List String :=
    (if 800 ≤ silenceMs then
      ["Natural pause detected (~" ++ toString silenceMs ++ "ms silence)"]
     else if 500 ≤ silenceMs then
      ["Short pause detected (~" ++ toString silenceMs ++ "ms silence)"]
     else [])
  let pros := pros ++ (if c.boundary then ["Likely sentence boundary or topic shift"] else [])
  let quietBefore := quietness_from_rms c.rms_before
  let quietAfter := quietness_from_rms c.rms_after
  let pros := pros ++ (if 7/10 ≤ quietBefore then ["Low background energy before insert"] else [])
  let pros := pros ++ (if 7/10 ≤ quietAfter then ["Low background energy after insert"] else [])
  let cons : List String :=
    (if silenceMs < 600 then
      ["Short pause (only ~" ++ toString silenceMs ++ "ms) could feel abrupt"]
     else [])
  let cons := cons ++ (if quietAfter < 1/2 then ["Higher energy immediately after insertion"] else [])
  let cons := cons ++ (if c.insertion_ms < 5000 then ["Close to the start of the audio"] else [])
  let cons := cons ++ (if durationMs - c.insertion_ms < 5000 then ["Close to the end of the audio"] else [])
  let pros :=
    if pros.length < 2 then pros ++ ["Balanced pause with manageable energy shift"]
    else pros
  let pros := pros.take 3
  let cons := if cons.isEmpty then ["Minor timing tradeoff compared to top slot"] else cons.take 2
  (pros, cons, String.intercalate " " (pros.take 2))

/-- `_song_pros_cons(candidate, duration_ms)`
(recommend.py lines 281-309). -/
def song_pros_cons (c : Candidate) (durationMs : ℤ) :
    List String × List String × String :=
  let pros : List String := if c.beat_aligned then ["Beat-aligned insertion point"] else []
  let valley := quietness_from_rms (c.rms_center.getD 0)
  let pros := pros ++ (if 7/10 ≤ valley then ["Low-energy valley (smooth entry)"] else [])
  let quietAfter := quietness_from_rms c.rms_after
  let pros := pros ++ (if 3/5 ≤ quietAfter then ["Stable energy after insert"] else [])
  let cons : List String := if !c.beat_aligned then ["Not perfectly beat-aligned"] else []
  let cons := cons ++ (if valley < 1/2 then ["Energy valley is modest"] else [])
  let cons := cons ++ (if quietAfter < 1/2 then ["Higher energy change after insertion"] else [])
  let cons := cons ++
    (if c.insertion_ms < 5000 ∨ durationMs - c.insertion_ms < 5000 then ["Close to the intro or outro"] else [])
  let pros :=
    if pros.length < 2 then pros ++ ["Solid rhythmic placement with manageable energy"]
    else pros
  let pros := pros.take 3
  let cons := if cons.isEmpty then ["Less optimal alignment compared to top choice"] else cons.take 2
  (pros, cons, String.intercalate " " (pros.take 2))

/-! ## mix.py: audio segments at millisecond granularity -/

/-- `AudioSegment.silent(duration=n)`. -/
def silentSeg (n : ℕ) : List ℚ :=
  List.replicate n 0

/-- pydub `base.overlay(other)`: the result has the length of `base`;
samples are mixed where the two overlap, `base` is kept beyond the end of
`other` (sample mixing idealized as exact addition). -/
def overlaySeg (base other : List ℚ) : List ℚ :=
  List.zipWith (· + ·) base (other ++ List.replicate base.length 0)

/-- pydub `seg.apply_gain(db)` as the pointwise scaling by the linear
factor corresponding to `db` (the caller supplies the conversion). -/
def applyGainSeg (factor : ℚ) (a : List ℚ) : List ℚ :=
  a.map (fun x => factor * x)

/-- pydub `seg.fade_in(d)`: first `d` ms are ramped (curve idealized as
the linear ramp; only the length and the untouched tail matter to any
claim proved here). -/
def fadeInSeg (d : ℕ) (a : List ℚ) : List ℚ :=
  a.mapIdx (fun i x => if i < d then (((i : ℚ) + 1) / d) * x else x)

/-- pydub `seg.fade_out(d)`: last `d` ms are ramped. -/
def fadeOutSeg (d : ℕ) (a : List ℚ) : List ℚ :=
  a.mapIdx (fun i x => if a.length - d ≤ i then (((a.length - i : ℕ) : ℚ) / d) * x else x)

/-- pydub `s1.append(s2, crossfade=cf)`: the last `cf` ms of `s1` are
mixed with the first `cf` ms of `s2` (complementary fade gains idealized
as exact addition), so the result is `cf` ms shorter than `s1 ++ s2`. -/
def appendCrossfade (s1 s2 : List ℚ) (cf : ℕ) : List ℚ :=
  s1.take (s1.length - cf) ++
    List.zipWith (· + ·) (s1.drop (s1.length - cf)) (s2.take cf) ++
    s2.drop cf

/-- `measure_lufs(audio)` (mix.py lines 27-32): `meter` is the
pyloudnorm integrated-loudness measurement, a parameter of the model; the
source only short-circuits the zero-sample case. -/
def measure_lufs (meter : List ℚ → ℚ) (samples : List ℚ) : ℚ :=
  if samples.length = 0 then -70 else meter samples

/-- `loop_to_length`'s `while len(output) < target_ms` loop
(mix.py lines 51-53), with explicit fuel; each pass appends a copy of
`audio`, so `target_ms` passes always suffice when `audio` is non-empty. -/
def loopBody (audio : List ℚ) (targetMs : ℕ) : ℕ → List ℚ → List ℚ
  | 0, output => output
  | fuel + 1, output =>
    if output.length < targetMs then loopBody audio targetMs fuel (output ++ audio)
    else output

/-- `loop_to_length(audio, target_ms)` (mix.py lines 48-54). -/
def loop_to_length (audio : List ℚ) (targetMs : ℕ) : List ℚ :=
  if audio.length = 0 then silentSeg targetMs
  else (loopBody audio targetMs targetMs []).take targetMs

/-- `insert_with_crossfade(main, promo, insert_ms, duck_db, crossfade_ms)`
(mix.py lines 68-89).  `gainOfDb` is the dB → linear-amplitude
conversion used by `apply_gain` (irrational, hence a parameter). -/
def insert_with_crossfade (gainOfDb : ℚ → ℚ) (main promo : List ℚ)
    (insertMsArg : ℤ) (duckDb : ℚ := 0) (crossfadeMs : ℕ := 250) : List ℚ :=
  let insertMs : ℕ := (max 0 insertMsArg).toNat
  let pre := main.take insertMs
  let post := main.drop (insertMs + promo.length)
  let mid := (main.drop insertMs).take promo.length
  let mid :=
    if 0 < duckDb then fadeOutSeg 100 (fadeInSeg 100 (applyGainSeg (gainOfDb (-duckDb)) mid))
    else mid
  let mid := overlaySeg mid promo
  let cf1 := min crossfadeMs (min pre.length mid.length)
  let merged := appendCrossfade pre mid cf1
  let cf2 := min crossfadeMs (min merged.length post.length)
  appendCrossfade merged post cf2

/-! ## llm.py: alternate scoring path and arbitration-response validation -/

/-- The apostrophe character (written via its code point). -/
def apos : Char := Char.ofNat 39

/-- Python `str.strip()` on a list of characters. -/
def stripChars (s : List Char) : List Char :=
  ((s.dropWhile Char.isWhitespace).reverse.dropWhile Char.isWhitespace).reverse

/-- `_ends_sentence(text)` (llm.py lines 22-24): after stripping, the
text matches the regex `[.!?]["\x27)\x5d]?$`. -/
def ends_sentence (text : String) : Bool :=
  match (stripChars text.toList).reverse with
  | [] => false
  | c :: rest =>
    if c ∈ ['.', '!', '?'] then true
    else if c ∈ ['"', ')', ']'] ∨ c = apos then
      match rest with
      | [] => false
      | d :: _ => d ∈ ['.', '!', '?']
    else false

/-- `_starts_new_sentence(text)` (llm.py lines 27-29): after left-strip,
the first character matches `[A-Z0-9"\x27(\x5b]`. -/
def starts_new_sentence (text : String) : Bool :=
  match text.toList.dropWhile Char.isWhitespace with
  | [] => false
  | c :: _ =>
    decide (('A' ≤ c ∧ c ≤ 'Z') ∨ ('0' ≤ c ∧ c ≤ '9')) ||
      decide (c ∈ ['"', '(', '[']) || decide (c = apos)

/-- `_mid_sentence_penalty(text)` (llm.py lines 32-38): stripped text is
non-empty, does not end a sentence, and ends in `[A-Za-z0-9]`. -/
def mid_sentence_penalty (text : String) : Bool :=
  match (stripChars text.toList).reverse with
  | [] => false
  | c :: _ =>
    if ends_sentence text then false
    else decide (('A' ≤ c ∧ c ≤ 'Z') ∨ ('a' ≤ c ∧ c ≤ 'z') ∨ ('0' ≤ c ∧ c ≤ '9'))

/-- One candidate of the JSON payload handed to the arbitration
collaborator (`build_candidate_payload`, analysis.py lines 217-249); the
defaulting of absent/falsy dict entries is resolved into the fields. -/
structure PayloadCand where
  insertion_ms : ℤ := 0
  silence_ms : Option ℚ := none
  rms_before : ℚ := 0
  rms_after : ℚ := 0
  beat_aligned : Bool := false
  transcript_before : Option String := none
  transcript_after : Option String := none
  deriving DecidableEq, Repr, Inhabited

/-- `_score_podcast_candidate(candidate)` (llm.py lines 41-57). -/
def score_podcast_candidate (c : PayloadCand) : ℚ :=
  let silenceMs : ℚ := c.silence_ms.getD 0
  let score : ℚ := min (silenceMs / 500) 2
  let before := if c.transcript_before.getD "" = "TRANSCRIPT_UNAVAILABLE" then ""
                else c.transcript_before.getD ""
  let after := if c.transcript_after.getD "" = "TRANSCRIPT_UNAVAILABLE" then ""
               else c.transcript_after.getD ""
  let score := if before ≠ "" ∧ ends_sentence before then score + 1 else score
  let score := if after ≠ "" ∧ starts_new_sentence after then score + 1/2 else score
  let score := if before ≠ "" ∧ mid_sentence_penalty before then score - 1 else score
  score

/-- Python `min` of a list of values (only applied to non-empty lists). -/
def listMin : List ℚ → ℚ
  | [] => 0
  | [x] => x
  | x :: xs => min x (listMin xs)

/-- `_normalize(values)` (llm.py lines 60-67).  Note the source maps
`val` to `(max_val - val) / (max_val - min_val)`. -/
def _normalize (values : List ℚ) : List ℚ :=
  if values.isEmpty then []
  else
    let minVal := listMin values
    let maxVal := listMax values
    if maxVal = minVal then values.map (fun _ => 0)
    else values.map (fun v => (maxVal - v) / (maxVal - minVal))

/-- `_score_song_candidates(candidates)` (llm.py lines 70-89). -/
def score_song_candidates (cands : List PayloadCand) : List ℚ :=
  let rmsBeforeVals := cands.map (fun c => c.rms_before)
  let rmsAfterVals := cands.map (fun c => c.rms_after)
  let normBefore := _normalize rmsBeforeVals
  let normAfter := _normalize rmsAfterVals
  cands.enum.map (fun ic =>
    let idx := ic.1
    let score : ℚ := if ic.2.beat_aligned then 1 else 0
    let score := score + (3/5) * (if idx < normBefore.length then normBefore.getD idx 0 else 0)
    let score := score + (2/5) * (if idx < normAfter.length then normAfter.getD idx 0 else 0)
    let rmsBefore := rmsBeforeVals.getD idx 0
    let rmsAfter := rmsAfterVals.getD idx 0
    let score := if 0 < rmsBefore ∧ rmsBefore * (5/4) < rmsAfter then score - 1/2 else score
    let score := if 0 < rmsBefore ∧ rmsBefore * (3/2) < rmsAfter then score - 4/5 else score
    score)

/-- Python `max(range(len(scores)), key=lambda i: scores[i])`: the first
index attaining the maximum. -/
def argmaxFirst (scores : List ℚ) : ℕ :=
  (scores.enum.foldl (fun best iv => if best.2 < iv.2 then iv else best)
    (0, scores.getD 0 0)).1

/-- `_choose_by_heuristic(mode, candidates)` (llm.py lines 92-106):
returns `(best_idx, chosen_ms, rationale)`. -/
def choose_by_heuristic (mode : String) (cands : List PayloadCand) :
    ℕ × ℤ × String :=
  if cands.isEmpty then (0, 0, "No candidates provided; defaulting to 0ms.")
  else if mode = "song" then
    let scores := score_song_candidates cands
    let bestIdx := argmaxFirst scores
    (bestIdx, (cands.getD bestIdx default).insertion_ms,
     "Heuristic: beat alignment + low RMS valley with minimal post-insert rise.")
  else
    let scores := cands.map score_podcast_candidate
    let bestIdx := argmaxFirst scores
    (bestIdx, (cands.getD bestIdx default).insertion_ms,
     "Heuristic: larger silence gap and sentence boundary cues.")

/-- `llm.SelectionResult` (llm.py lines 13-19); `why_chosen` is the
`debug["why_chosen"]` entry. -/
structure SelectionResult where
  chosen_candidate_index : ℤ
  chosen_insertion_ms : ℤ
  rationale : String
  refined_sponsor_text : Option String
  why_chosen : String
  deriving DecidableEq, Repr

/-- Outcome of the arbitration collaborator call inside
`select_best_insertion`, as observed at the validation boundary:
the collaborator was not configured, the request/JSON parse raised, or a
schema-shaped response was parsed. -/
inductive LLMOutcome where
  | unavailable : LLMOutcome
  | failure (msg : String) : LLMOutcome
  | parsed (chosenIdx chosenMs : ℤ) (rationale : String)
      (refined : Option String) : LLMOutcome
  deriving DecidableEq, Repr

/-- The `except` branch of `select_best_insertion`
(llm.py lines 237-252): heuristic fallback, recording the failure. -/
def llmFailedResult (mode : String) (cands : List PayloadCand)
    (msg : String) : SelectionResult :=
  let h := choose_by_heuristic mode cands
  let why := h.2.2 ++ " (LLM failed: " ++ msg ++ ")"
  { chosen_candidate_index := h.1
    chosen_insertion_ms := h.2.1
    rationale := why
    refined_sponsor_text := none
    why_chosen := why }

/-- `select_best_insertion(...)` (llm.py lines 123-252), with the
collaborator call abstracted into its observed `LLMOutcome`; the
validation of the parsed response (lines 214-220) raises a `ValueError`
that the enclosing `except` turns into the heuristic fallback. -/
def select_best_insertion (mode : String) (cands : List PayloadCand)
    (outcome : LLMOutcome) : SelectionResult :=
  match outcome with
  | .unavailable =>
    let h := choose_by_heuristic mode cands
    { chosen_candidate_index := h.1
      chosen_insertion_ms := h.2.1
      rationale := h.2.2
      refined_sponsor_text := none
      why_chosen := h.2.2 }
  | .failure msg => llmFailedResult mode cands msg
  | .parsed chosenIdx chosenMs rat refined =>
    if chosenIdx < 0 ∨ (cands.length : ℤ) ≤ chosenIdx then
      llmFailedResult mode cands "LLM chose candidate index out of range."
    else if (cands.getD chosenIdx.toNat default).insertion_ms ≠ chosenMs then
      llmFailedResult mode cands "LLM insertion_ms does not match chosen candidate."
    else
      { chosen_candidate_index := chosenIdx
        chosen_insertion_ms := chosenMs
        rationale := rat.trim
        refined_sponsor_text :=
          match refined with
          | some s => if s = "" then none else some s.trim
          | none => none
        why_chosen := rat.trim }

/-! ## Spec-side formulas (for refinement comparisons)

These definitions follow the words of the spec sentences under test (not
the source), so that the source-derived functions above can be compared
against them. -/

/-- The spoken-word score exactly as the claim words it: weighted sum,
boundary bonus, energy-rise penalty, then ONE proximity penalty of 25
"if insertion_ms < 5000 or if duration_ms − insertion_ms < 5000", then
clamp to [0,100]. -/
def specPodcastScoreClaimed (c : Candidate) (durationMs : ℤ) : ℚ :=
  pclamp
    (45 * ((min (c.silence_ms.getD 0) 1500 : ℤ) : ℚ) / 1500
      + 20 * quietness_from_rms c.rms_before
      + 10 * quietness_from_rms c.rms_after
      + (if c.boundary then 12 else 0)
      - 10 * (1 - quietness_from_rms c.rms_after)
      - (if c.insertion_ms < 5000 ∨ durationMs - c.insertion_ms < 5000 then 25 else 0))
    0 100

/-- The spoken-word score with the claim's penalty clause amended to what
the source does: 25 is subtracted separately for each of the two
proximity conditions (so both together subtract 50). -/
def specPodcastScoreAmended (c : Candidate) (durationMs : ℤ) : ℚ :=
  pclamp
    (45 * ((min (c.silence_ms.getD 0) 1500 : ℤ) : ℚ) / 1500
      + 20 * quietness_from_rms c.rms_before
      + 10 * quietness_from_rms c.rms_after
      + (if c.boundary then 12 else 0)
      - 10 * (1 - quietness_from_rms c.rms_after)
      - (if c.insertion_ms < 5000 then 25 else 0)
      - (if durationMs - c.insertion_ms < 5000 then 25 else 0))
    0 100

/-- Standard min-max scaling across a candidate set, as the claim words
it ("normalized min-max-scales the values across the candidate set to
[0,1] and is all zeros when min = max"). -/
def minmaxScaled (values : List ℚ) (v : ℚ) : ℚ :=
  if listMax values = listMin values then 0
  else (v - listMin values) / (listMax values - listMin values)

/-- The alternate-path music scores exactly as the claim words them:
standard min-max normalization and unconditionally-guarded rise
penalties. -/
def specSongScoresClaimed (cands : List PayloadCand) : List ℚ :=
  let befores := cands.map (fun c => c.rms_before)
  let afters := cands.map (fun c => c.rms_after)
  cands.map (fun c =>
    (if c.beat_aligned then (1 : ℚ) else 0)
      + (3/5) * minmaxScaled befores c.rms_before
      + (2/5) * minmaxScaled afters c.rms_after
      - (if c.rms_before * (5/4) < c.rms_after then 1/2 else 0)
      - (if c.rms_before * (3/2) < c.rms_after then 4/5 else 0))

/-- Inverted min-max scaling: the maximum maps to 0 and the minimum to 1
(all zeros when min = max), which is what `_normalize` computes. -/
def minmaxInverted (values : List ℚ) (v : ℚ) : ℚ :=
  if listMax values = listMin values then 0
  else (listMax values - v) / (listMax values - listMin values)

/-- The alternate-path music scores with the claim amended to what the
source does: the normalization is the inverted min-max scaling (lower
RMS scores higher), and each rise penalty additionally requires
rms_before > 0. -/
def specSongScoresAmended (cands : List PayloadCand) : List ℚ :=
  let befores := cands.map (fun c => c.rms_before)
  let afters := cands.map (fun c => c.rms_after)
  cands.map (fun c =>
    (if c.beat_aligned then (1 : ℚ) else 0)
      + (3/5) * minmaxInverted befores c.rms_before
      + (2/5) * minmaxInverted afters c.rms_after
      - (if 0 < c.rms_before ∧ c.rms_before * (5/4) < c.rms_after then 1/2 else 0)
      - (if 0 < c.rms_before ∧ c.rms_before * (3/2) < c.rms_after then 4/5 else 0))

/-! ## Helper lemmas -/

theorem getD_map_of_lt {α β : Type} (f : α → β) (l : List α) (i : ℕ)
    (h : i < l.length) (d : β) : (l.map f).getD i d = f (l[i]) := by
  simp [List.getD, List.getElem?_map, List.getElem?_eq_getElem h]

theorem normalize_length (values : List ℚ) :
    (_normalize values).length = values.length := by
  unfold _normalize
  by_cases hE : values.isEmpty
  · simp [List.isEmpty_iff.mp hE]
  · simp only [hE, Bool.false_eq_true, if_false]
    split_ifs <;> simp

theorem normalize_eq_map (values : List ℚ) :
    _normalize values = values.map (minmaxInverted values) := by
  unfold _normalize minmaxInverted
  by_cases hE : values.isEmpty
  · simp [List.isEmpty_iff.mp hE]
  · simp only [hE, Bool.false_eq_true, if_false]
    by_cases hMm : listMax values = listMin values
    · simp [hMm]
    · simp [hMm]

theorem le_listMax_of_mem : ∀ {l : List ℚ} {a : ℚ}, a ∈ l → a ≤ listMax l := by
  intro l
  induction l with
  | nil => intro a h; simp at h
  | cons x xs ih =>
    intro a ha
    cases xs with
    | nil =>
      have : a = x := by simpa using ha
      simp [listMax, this]
    | cons y ys =>
      rcases List.mem_cons.mp ha with h | h
      · simp only [listMax, h]; exact le_max_left _ _
      · exact le_trans (ih h) (by simp only [listMax]; exact le_max_right _ _)

theorem listMax_map_add (b : ℚ) :
    ∀ l : List ℚ, l ≠ [] → listMax (l.map (fun s => s + b)) = listMax l + b := by
  intro l
  induction l with
  | nil => intro h; exact absurd rfl h
  | cons x xs ih =>
    intro _
    cases xs with
    | nil => simp [listMax]
    | cons y ys =>
      have hys : y :: ys ≠ [] := by simp
      have hrec := ih hys
      simp only [List.map_cons] at hrec ⊢
      simp only [listMax]
      rw [hrec, max_add_add_right]

/-! ## Claim C2: spoken-word scoring formula -/

/-- C2 counterexample: at `insertion_ms = 4000` in an 8000 ms recording
both proximity conditions hold; the source subtracts 25 twice (score 37),
while the claim's single disjunctive penalty gives 62. -/
theorem score_podcast_penalty_counterexample :
    score_podcast ⟨4000, some 1500, 0, 0, false, "", true, none, 0⟩ 8000 ≠
      specPodcastScoreClaimed ⟨4000, some 1500, 0, 0, false, "", true, none, 0⟩ 8000 := by
  have h1 : score_podcast ⟨4000, some 1500, 0, 0, false, "", true, none, 0⟩ 8000 = 37 := by
    unfold score_podcast
    norm_num [quietness_from_rms, pclamp, min_def, max_def]
  have h2 :
      specPodcastScoreClaimed ⟨4000, some 1500, 0, 0, false, "", true, none, 0⟩ 8000 = 62 := by
    unfold specPodcastScoreClaimed
    norm_num [quietness_from_rms, pclamp, min_def, max_def]
  rw [h1, h2]
  norm_num

/-- C2 (amended): the spoken-word Scorer returns
45·min(silence_ms,1500)/1500 + 20·quietness(rms_before) +
10·quietness(rms_after) + (12 if sentence_boundary) −
10·(1−quietness(rms_after)), with a proximity penalty of −25 applied
separately for each of `insertion_ms < 5000` and
`duration_ms − insertion_ms < 5000` (cumulatively −50 when both hold),
the result clamped to [0,100]. -/
theorem score_podcast_amended_formula :
    ∀ (c : Candidate) (durationMs : ℤ),
      score_podcast c durationMs = specPodcastScoreAmended c durationMs := by
  intro c d
  unfold score_podcast specPodcastScoreAmended
  split_ifs <;> ring_nf

/-! ## Claim C9: alternate music scoring -/

/-- C9 counterexample: for candidates with `rms_before` 0 and 2 (equal
`rms_after` 1), the source's inverted normalization and its
`rms_before > 0` penalty guard give scores `[3/5, 0]`, while the claim's
standard min-max scaling and unguarded penalties give `[−13/10, 3/5]`. -/
theorem song_scores_normalization_counterexample :
    score_song_candidates
        [⟨0, none, 0, 1, false, none, none⟩, ⟨0, none, 2, 1, false, none, none⟩] ≠
      specSongScoresClaimed
        [⟨0, none, 0, 1, false, none, none⟩, ⟨0, none, 2, 1, false, none, none⟩] := by
  have hn1 : _normalize [0, 2] = [1, 0] := by
    unfold _normalize
    norm_num [listMax, listMin]
  have hn2 : _normalize [1, 1] = [0, 0] := by
    unfold _normalize
    norm_num [listMax, listMin]
  have h1 :
      score_song_candidates
          [⟨0, none, 0, 1, false, none, none⟩, ⟨0, none, 2, 1, false, none, none⟩] =
        [3/5, 0] := by
    unfold score_song_candidates
    norm_num [List.enum, List.enumFrom, hn1, hn2]
  have h2 :
      specSongScoresClaimed
          [⟨0, none, 0, 1, false, none, none⟩, ⟨0, none, 2, 1, false, none, none⟩] =
        [-13/10, 3/5] := by
    unfold specSongScoresClaimed
    norm_num [minmaxScaled, listMax, listMin]
  rw [h1, h2]
  intro hEq
  have hHead := (List.cons.inj hEq).1
  norm_num at hHead

/-- C9 (amended): each alternate-path music score equals
beat_aligned·1.0 + 0.6·normalized(rms_before) + 0.4·normalized(rms_after)
− 0.5 if rms_before > 0 and rms_after > 1.25·rms_before − a further 0.8
if rms_before > 0 and rms_after > 1.5·rms_before, where normalized is the
INVERTED min-max scaling across the candidate set ((max−v)/(max−min),
all zeros when min = max). -/
theorem song_scores_amended_formula :
    ∀ cands : List PayloadCand,
      score_song_candidates cands = specSongScoresAmended cands := by
  intro cands
  unfold score_song_candidates specSongScoresAmended
  apply List.ext_getElem
  · simp
  · intro i h1 h2
    have hi : i < cands.length := by simpa using h2
    have hEnum : i < cands.enum.length := by simpa using hi
    have hB : i < (cands.map (fun c => c.rms_before)).length := by simpa using hi
    have hA : i < (cands.map (fun c => c.rms_after)).length := by simpa using hi
    dsimp only
    simp only [List.getElem_map, List.getElem_enum]
    have hnb : (_normalize (cands.map (fun c => c.rms_before))).getD i 0 =
        minmaxInverted (cands.map (fun c => c.rms_before)) (cands[i].rms_before) := by
      rw [normalize_eq_map, getD_map_of_lt _ _ _ hB, List.getElem_map]
    have hna : (_normalize (cands.map (fun c => c.rms_after))).getD i 0 =
        minmaxInverted (cands.map (fun c => c.rms_after)) (cands[i].rms_after) := by
      rw [normalize_eq_map, getD_map_of_lt _ _ _ hA, List.getElem_map]
    have hgb : (cands.map (fun c => c.rms_before)).getD i 0 = cands[i].rms_before := by
      rw [getD_map_of_lt _ _ _ hi]
    have hga : (cands.map (fun c => c.rms_after)).getD i 0 = cands[i].rms_after := by
      rw [getD_map_of_lt _ _ _ hi]
    simp only [normalize_length, List.length_map, hi, if_pos, hnb, hna, hgb, hga]
    split_ifs <;> ring_nf

/-! ## Claim C10: loop_to_length -/

theorem loopBody_length_ge (audio : List ℚ) (target : ℕ) (hA : audio ≠ []) :
    ∀ (fuel : ℕ) (out : List ℚ), target ≤ out.length + fuel →
      target ≤ (loopBody audio target fuel out).length := by
  intro fuel
  induction fuel with
  | zero => intro out h; simpa [loopBody] using h
  | succ n ih =>
    intro out h
    unfold loopBody
    by_cases hlt : out.length < target
    · simp only [hlt, if_true]
      apply ih
      have : 1 ≤ audio.length := List.length_pos.mpr hA
      simp only [List.length_append]
      omega
    · simp only [hlt, if_false]
      omega

/-- C10: for every audio segment (including the empty one) and every
target length, `loop_to_length` returns a segment of exactly `target_ms`
milliseconds, and for the empty segment it is the all-silent segment. -/
theorem loop_to_length_exact_length :
    ∀ (audio : List ℚ) (targetMs : ℕ),
      (loop_to_length audio targetMs).length = targetMs ∧
        loop_to_length [] targetMs = List.replicate targetMs 0 := by
  intro audio target
  constructor
  · unfold loop_to_length
    by_cases hA : audio.length = 0
    · simp [hA, silentSeg]
    · have hne : audio ≠ [] := by
        intro h; exact hA (by simp [h])
      have hlen := loopBody_length_ge audio target hne target [] (by simp)
      simp only [hA, if_false]
      rw [List.length_take]
      omega
  · unfold loop_to_length
    simp [silentSeg]

/-! ## Claim C6: measure_lufs on digital silence -/

/-- C6 (code-bug evidence): a one-second all-zero buffer has a nonzero
sample count, so `measure_lufs` does NOT return the −70 convention but
forwards the buffer to the pyloudnorm meter (which yields −inf for
digital silence); the −70 short-circuit fires only for zero samples. -/
theorem measure_lufs_digital_silence_reaches_meter :
    ∀ meter : List ℚ → ℚ,
      measure_lufs meter (List.replicate 44100 0) =
          meter (List.replicate 44100 0) ∧
        measure_lufs meter [] = -70 := by
  intro meter
  refine ⟨?_, rfl⟩
  unfold measure_lufs
  rw [if_neg (by norm_num)]

/-! ## Claim C1: insert_with_crossfade duration -/

theorem overlaySeg_length (base other : List ℚ) :
    (overlaySeg base other).length = base.length := by
  simp [overlaySeg]

theorem duckSeg_length (g : ℚ) (l : List ℚ) :
    (fadeOutSeg 100 (fadeInSeg 100 (applyGainSeg g l))).length = l.length := by
  simp [fadeOutSeg, fadeInSeg, applyGainSeg]

theorem appendCrossfade_length (s1 s2 : List ℚ) (cf : ℕ)
    (h1 : cf ≤ s1.length) (h2 : cf ≤ s2.length) :
    (appendCrossfade s1 s2 cf).length = s1.length + s2.length - cf := by
  simp [appendCrossfade, List.length_zipWith]
  omega

/-- General duration law for `insert_with_crossfade`: when the insert
fits inside the host and the crossfade is no longer than the three
segments it touches, the output is exactly two crossfades shorter than
the host — the promo is overlaid in place and never extends the
duration. -/
theorem insert_with_crossfade_length (g : ℚ → ℚ) (main promo : List ℚ)
    (ins : ℤ) (duck : ℚ) (cf : ℕ)
    (h0 : 0 ≤ ins) (hfit : ins.toNat + promo.length ≤ main.length)
    (hcf1 : cf ≤ ins.toNat) (hcf2 : cf ≤ promo.length)
    (hcf3 : cf ≤ main.length - (ins.toNat + promo.length)) :
    (insert_with_crossfade g main promo ins duck cf).length =
      main.length - 2 * cf := by
  unfold insert_with_crossfade
  dsimp only
  rw [max_eq_right h0]
  have hpre : (main.take ins.toNat).length = ins.toNat := by
    rw [List.length_take]; omega
  have hpost : (main.drop (ins.toNat + promo.length)).length =
      main.length - (ins.toNat + promo.length) := by
    rw [List.length_drop]
  have hmid0 : ((main.drop ins.toNat).take promo.length).length = promo.length := by
    rw [List.length_take, List.length_drop]; omega
  have hmidduck :
      (if 0 < duck then
          fadeOutSeg 100 (fadeInSeg 100 (applyGainSeg (g (-duck))
            ((main.drop ins.toNat).take promo.length)))
        else (main.drop ins.toNat).take promo.length).length = promo.length := by
    split_ifs
    · rw [duckSeg_length, hmid0]
    · exact hmid0
  have hmid :
      (overlaySeg
        (if 0 < duck then
            fadeOutSeg 100 (fadeInSeg 100 (applyGainSeg (g (-duck))
              ((main.drop ins.toNat).take promo.length)))
          else (main.drop ins.toNat).take promo.length) promo).length = promo.length := by
    rw [overlaySeg_length, hmidduck]
  rw [hpre, hmid]
  have hc1 : min cf (min ins.toNat promo.length) = cf := by omega
  rw [hc1]
  have hmerged :
      (appendCrossfade (main.take ins.toNat)
        (overlaySeg
          (if 0 < duck then
              fadeOutSeg 100 (fadeInSeg 100 (applyGainSeg (g (-duck))
                ((main.drop ins.toNat).take promo.length)))
            else (main.drop ins.toNat).take promo.length) promo) cf).length =
        ins.toNat + promo.length - cf := by
    rw [appendCrossfade_length _ _ _ (by rw [hpre]; exact hcf1) (by rw [hmid]; exact hcf2)]
    rw [hpre, hmid]
  rw [hmerged, hpost]
  have hc2 : min cf (min (ins.toNat + promo.length - cf)
      (main.length - (ins.toNat + promo.length))) = cf := by omega
  rw [hc2]
  rw [appendCrossfade_length _ _ _ (by rw [hmerged]; omega) (by rw [hpost]; omega)]
  rw [hmerged, hpost]
  omega

/-- C1 counterexample: a 40 ms host, a 10 ms insert at 20 ms, crossfade
5 ms (no longer than any adjoining segment).  The output lasts
40 − 5 − 5 = 30 ms, not the host + D − overlaps = 40 + 10 − 10 = 40 ms
the claim asserts: the insert is mixed over the host, not spliced in. -/
theorem insert_with_crossfade_duration_counterexample :
    (insert_with_crossfade (fun _ => 1) (List.replicate 40 0)
        (List.replicate 10 1) 20 0 5).length = 30 ∧
      (insert_with_crossfade (fun _ => 1) (List.replicate 40 0)
          (List.replicate 10 1) 20 0 5).length ≠ 40 + 10 - (5 + 5) := by
  have h := insert_with_crossfade_length (fun _ => 1) (List.replicate 40 0)
    (List.replicate 10 1) 20 0 5 (by norm_num) (by simp) (by simp) (by simp) (by simp)
  simp only [List.length_replicate] at h
  refine ⟨by rw [h], by rw [h]; norm_num⟩

/-- C1 (amended): for `0 ≤ P`, insert fitting inside the host, and
crossfade_ms at most the length of each adjoining segment (pre-segment,
insert-covered segment, post-segment), `insert_with_crossfade` returns a
buffer whose total duration equals the HOST duration minus the sum of
the two crossfade overlaps; the overlay-in-place design means the
duration never increases by the insert's duration D. -/
theorem insert_with_crossfade_duration_amended (g : ℚ → ℚ)
    (main promo : List ℚ) (ins : ℤ) (duck : ℚ) (cf : ℕ)
    (h0 : 0 ≤ ins) (hfit : ins.toNat + promo.length ≤ main.length)
    (hcf1 : cf ≤ ins.toNat) (hcf2 : cf ≤ promo.length)
    (hcf3 : cf ≤ main.length - (ins.toNat + promo.length)) :
    (insert_with_crossfade g main promo ins duck cf).length =
      main.length - (cf + cf) := by
  rw [insert_with_crossfade_length g main promo ins duck cf h0 hfit hcf1 hcf2 hcf3]
  omega

/-- C1 witness: the amended duration law applied at the concrete input
of the counterexample. -/
theorem insert_with_crossfade_duration_amended_witness :
    (insert_with_crossfade (fun _ => 1) (List.replicate 40 0)
        (List.replicate 10 1) 20 0 5).length =
      (List.replicate (40 : ℕ) (0 : ℚ)).length - (5 + 5) :=
  insert_with_crossfade_duration_amended (fun _ => 1) (List.replicate 40 0)
    (List.replicate 10 1) 20 0 5 (by norm_num) (by simp) (by simp) (by simp) (by simp)

/-! ## Claim C3: boost/cap post-processing -/

theorem pclamp_nonneg (v hi : ℚ) : 0 ≤ pclamp v 0 hi :=
  le_max_left 0 _

theorem pclamp_le_of_le {s b : ℚ} (hb : 0 ≤ b) (hs : s ≤ b) :
    pclamp s 0 100 ≤ b :=
  max_le hb (le_trans (min_le_right _ _) hs)

theorem quietness_le_one (r : ℚ) : quietness_from_rms r ≤ 1 :=
  max_le (by norm_num) (min_le_left _ _)

theorem score_podcast_range (c : Candidate) (d : ℤ) :
    0 ≤ score_podcast c d ∧ score_podcast c d ≤ 95 := by
  unfold score_podcast
  refine ⟨pclamp_nonneg _ _, ?_⟩
  have hqb := quietness_le_one c.rms_before
  have hqa := quietness_le_one c.rms_after
  have hqa0 : 0 ≤ quietness_from_rms c.rms_after := pclamp_nonneg _ _
  have hsil : ((min (c.silence_ms.getD 0) 1500 : ℤ) : ℚ) / 1500 ≤ 1 := by
    rw [div_le_one (by norm_num)]
    exact_mod_cast min_le_right (c.silence_ms.getD 0) 1500
  apply pclamp_le_of_le (by norm_num)
  split_ifs <;> linarith

theorem score_song_range (c : Candidate) (d : ℤ) :
    0 ≤ score_song c d ∧ score_song c d ≤ 95 := by
  unfold score_song
  refine ⟨pclamp_nonneg _ _, ?_⟩
  have hqb := quietness_le_one c.rms_before
  have hqa := quietness_le_one c.rms_after
  have hqc := quietness_le_one (c.rms_center.getD 0)
  apply pclamp_le_of_le (by norm_num)
  split_ifs <;> linarith

/-- Closed form of the boost/cap step on raw scores within [0,95]: it is
exactly a uniform shift (by `65 − max` when the maximum is below 65, by
0 otherwise). -/
theorem boostCap_eq_map_add (scores : List ℚ) (hne : scores ≠ [])
    (hb : ∀ s ∈ scores, 0 ≤ s ∧ s ≤ 95) :
    boostCap scores =
      scores.map
        (fun s => s + (if listMax scores < 65 then 65 - listMax scores else 0)) := by
  unfold boostCap
  have hE : scores.isEmpty = false := by
    cases scores
    · exact absurd rfl hne
    · rfl
  simp only [hE, Bool.false_eq_true, if_false]
  by_cases hm : listMax scores < 65
  · simp only [hm, if_true, List.map_map]
    apply List.map_congr_left
    intro s hs
    have h0 := (hb s hs).1
    have hsm := le_listMax_of_mem hs
    simp only [Function.comp]
    have h1 : pclamp (s + (65 - listMax scores)) 0 100 = s + (65 - listMax scores) := by
      unfold pclamp
      rw [min_eq_right (by linarith), max_eq_right (by linarith)]
    rw [h1, min_eq_left (by linarith)]
  · simp only [hm, if_false]
    apply List.map_congr_left
    intro s hs
    rw [min_eq_left (hb s hs).2, add_zero]

/-- C3: the Scorer's boost/cap post-processing.  Raw mode scores always
lie in [0,95]; on any non-empty list of such scores the step caps every
output at 95, adds the uniform boost 65 − max to every score when the
raw maximum is below 65 (making the new maximum exactly 65, hence within
[65,95]), and preserves the relative ordering of the candidates. -/
theorem boostCap_presentation_policy :
    (∀ (c : Candidate) (d : ℤ),
        (0 ≤ score_podcast c d ∧ score_podcast c d ≤ 95) ∧
          (0 ≤ score_song c d ∧ score_song c d ≤ 95)) ∧
      ∀ scores : List ℚ, scores ≠ [] → (∀ s ∈ scores, 0 ≤ s ∧ s ≤ 95) →
        (∀ x ∈ boostCap scores, x ≤ 95) ∧
          (listMax scores < 65 →
            boostCap scores = scores.map (fun s => s + (65 - listMax scores)) ∧
              listMax (boostCap scores) = 65) ∧
          (∀ i j : ℕ, i < scores.length → j < scores.length →
            (scores.getD i 0 ≤ scores.getD j 0 ↔
              (boostCap scores).getD i 0 ≤ (boostCap scores).getD j 0)) := by
  refine ⟨fun c d => ⟨score_podcast_range c d, score_song_range c d⟩, ?_⟩
  intro scores hne hb
  have hmap := boostCap_eq_map_add scores hne hb
  refine ⟨?_, ?_, ?_⟩
  · intro x hx
    rw [hmap] at hx
    rcases List.mem_map.mp hx with ⟨s, hs, rfl⟩
    have h95 := (hb s hs).2
    have hsm := le_listMax_of_mem hs
    split_ifs with hm
    · linarith
    · linarith
  · intro hm
    constructor
    · rw [hmap]
      apply List.map_congr_left
      intro s _
      rw [if_pos hm]
    · rw [hmap]
      simp only [hm, if_true]
      rw [listMax_map_add _ scores hne]
      ring
  · intro i j hi hj
    have hgi : (boostCap scores).getD i 0 =
        scores.getD i 0 + (if listMax scores < 65 then 65 - listMax scores else 0) := by
      rw [hmap, getD_map_of_lt _ _ _ hi, List.getD_eq_getElem _ _ hi]
    have hgj : (boostCap scores).getD j 0 =
        scores.getD j 0 + (if listMax scores < 65 then 65 - listMax scores else 0) := by
      rw [hmap, getD_map_of_lt _ _ _ hj, List.getD_eq_getElem _ _ hj]
    rw [hgi, hgj, add_le_add_iff_right]

/-- C3 witness: for raw scores [50, 30] (maximum 50 < 65) the boost/cap
step yields maximum exactly 65. -/
theorem boostCap_presentation_policy_witness :
    listMax (boostCap [(50 : ℚ), 30]) = 65 :=
  ((boostCap_presentation_policy.2 [50, 30] (by simp)
      (by
        intro s hs
        simp only [List.mem_cons, List.mem_singleton, List.not_mem_nil, or_false] at hs
        rcases hs with h | h <;> subst h <;> norm_num)).2.1
    (by norm_num [listMax, max_def])).2

/-! ## Claim C4: top-N selection -/

theorem selKey_trans :
    ∀ a b c : Candidate, selKey a b = true → selKey b c = true → selKey a c = true := by
  intro a b c hab hbc
  simp only [selKey, decide_eq_true_eq] at hab hbc ⊢
  rcases hab with h1 | ⟨h1e, h1i⟩ <;> rcases hbc with h2 | ⟨h2e, h2i⟩
  · left; exact lt_trans h2 h1
  · left; rw [← h2e]; exact h1
  · left; rw [h1e]; exact h2
  · right; exact ⟨h1e.trans h2e, le_trans h1i h2i⟩

theorem selKey_total :
    ∀ a b : Candidate, (selKey a b || selKey b a) = true := by
  intro a b
  simp only [selKey, Bool.or_eq_true, decide_eq_true_eq]
  rcases lt_trichotomy a.score b.score with h | h | h
  · right; left; exact h
  · rcases le_total a.insertion_ms b.insertion_ms with hi | hi
    · left; right; exact ⟨h, hi⟩
    · right; right; exact ⟨h.symm, hi⟩
  · left; left; exact h

theorem selectGreedy_length_le (topN : ℕ) (sep : ℤ) :
    ∀ (l sel : List Candidate), sel.length < topN →
      (selectGreedy topN sep l sel).length ≤ topN := by
  intro l
  induction l with
  | nil => intro sel h; simpa [selectGreedy] using le_of_lt h
  | cons c rest ih =>
    intro sel h
    simp only [selectGreedy]
    by_cases hacc : ∀ s ∈ sel, sep ≤ |c.insertion_ms - s.insertion_ms|
    · rw [if_pos hacc]
      by_cases htop : topN ≤ (sel ++ [c]).length
      · rw [if_pos htop]
        simp only [List.length_append, List.length_singleton]
        omega
      · rw [if_neg htop]
        apply ih
        simp only [List.length_append, List.length_singleton] at htop ⊢
        omega
    · rw [if_neg hacc]
      by_cases htop : topN ≤ sel.length
      · rw [if_pos htop]; omega
      · rw [if_neg htop]; exact ih sel (by omega)

theorem selectBackfill_length_le (topN : ℕ) :
    ∀ (l sel : List Candidate), sel.length < topN →
      (selectBackfill topN l sel).length ≤ topN := by
  intro l
  induction l with
  | nil => intro sel h; simpa [selectBackfill] using le_of_lt h
  | cons c rest ih =>
    intro sel h
    simp only [selectBackfill]
    by_cases hmem : c ∈ sel
    · rw [if_pos hmem]
      by_cases htop : topN ≤ sel.length
      · rw [if_pos htop]; omega
      · rw [if_neg htop]; exact ih sel (by omega)
    · rw [if_neg hmem]
      by_cases htop : topN ≤ (sel ++ [c]).length
      · rw [if_pos htop]
        simp only [List.length_append, List.length_singleton]
        omega
      · rw [if_neg htop]
        apply ih
        simp only [List.length_append, List.length_singleton] at htop ⊢
        omega

theorem selectGreedy_pairwise (topN : ℕ) (sep : ℤ) :
    ∀ (l sel : List Candidate),
      sel.Pairwise (fun a b => sep ≤ |a.insertion_ms - b.insertion_ms|) →
      (selectGreedy topN sep l sel).Pairwise
        (fun a b => sep ≤ |a.insertion_ms - b.insertion_ms|) := by
  intro l
  induction l with
  | nil => intro sel h; simpa [selectGreedy] using h
  | cons c rest ih =>
    intro sel h
    simp only [selectGreedy]
    by_cases hacc : ∀ s ∈ sel, sep ≤ |c.insertion_ms - s.insertion_ms|
    · rw [if_pos hacc]
      have h' : (sel ++ [c]).Pairwise
          (fun a b => sep ≤ |a.insertion_ms - b.insertion_ms|) := by
        rw [List.pairwise_append]
        refine ⟨h, by simp, ?_⟩
        intro a ha b hb
        have hb' : b = c := by simpa using hb
        subst hb'
        rw [abs_sub_comm]
        exact hacc a ha
      by_cases htop : topN ≤ (sel ++ [c]).length
      · rw [if_pos htop]; exact h'
      · rw [if_neg htop]; exact ih _ h'
    · rw [if_neg hacc]
      by_cases htop : topN ≤ sel.length
      · rw [if_pos htop]; exact h
      · rw [if_neg htop]; exact ih sel h

theorem selectGreedy_forall (topN : ℕ) (sep : ℤ) (P : Candidate → Prop) :
    ∀ (l sel : List Candidate), (∀ x ∈ sel, P x) → (∀ x ∈ l, P x) →
      ∀ x ∈ selectGreedy topN sep l sel, P x := by
  intro l
  induction l with
  | nil =>
    intro sel hsel _ x hx
    exact hsel x (by simpa [selectGreedy] using hx)
  | cons c rest ih =>
    intro sel hsel hl
    simp only [selectGreedy]
    have hsel' : ∀ x ∈ sel ++ [c], P x := by
      intro x hx
      rcases List.mem_append.mp hx with hxl | hxr
      · exact hsel x hxl
      · have hxc : x = c := by simpa using hxr
        rw [hxc]
        exact hl c (by simp)
    have hrest : ∀ x ∈ rest, P x := fun x hx => hl x (by simp [hx])
    by_cases hacc : ∀ s ∈ sel, sep ≤ |c.insertion_ms - s.insertion_ms|
    · rw [if_pos hacc]
      by_cases htop : topN ≤ (sel ++ [c]).length
      · rw [if_pos htop]; exact hsel'
      · rw [if_neg htop]; exact ih _ hsel' hrest
    · rw [if_neg hacc]
      by_cases htop : topN ≤ sel.length
      · rw [if_pos htop]; exact hsel
      · rw [if_neg htop]; exact ih sel hsel hrest

theorem selectBackfill_forall (topN : ℕ) (P : Candidate → Prop) :
    ∀ (l sel : List Candidate), (∀ x ∈ sel, P x) → (∀ x ∈ l, P x) →
      ∀ x ∈ selectBackfill topN l sel, P x := by
  intro l
  induction l with
  | nil =>
    intro sel hsel _ x hx
    exact hsel x (by simpa [selectBackfill] using hx)
  | cons c rest ih =>
    intro sel hsel hl
    simp only [selectBackfill]
    have hsel' : ∀ x ∈ sel ++ [c], P x := by
      intro x hx
      rcases List.mem_append.mp hx with hxl | hxr
      · exact hsel x hxl
      · have hxc : x = c := by simpa using hxr
        rw [hxc]
        exact hl c (by simp)
    have hrest : ∀ x ∈ rest, P x := fun x hx => hl x (by simp [hx])
    by_cases hmem : c ∈ sel
    · rw [if_pos hmem]
      by_cases htop : topN ≤ sel.length
      · rw [if_pos htop]; exact hsel
      · rw [if_neg htop]; exact ih sel hsel hrest
    · rw [if_neg hmem]
      by_cases htop : topN ≤ (sel ++ [c]).length
      · rw [if_pos htop]; exact hsel'
      · rw [if_neg htop]; exact ih _ hsel' hrest

/-- C4 counterexample: with `top_n = 0` the greedy loop still accepts
the first candidate before the stop check fires, so `_select_top`
returns one candidate — more than `top_n`. -/
theorem select_top_topn_zero_counterexample :
    ¬ ((select_top [⟨1000, some 600, 0, 0, false, "silence", false, none, 50⟩]
          0 6000).length ≤ 0) := by
  have hsort :
      ([(⟨1000, some 600, 0, 0, false, "silence", false, none, 50⟩ : Candidate)].mergeSort
        selKey) = [⟨1000, some 600, 0, 0, false, "silence", false, none, 50⟩] :=
    List.perm_singleton.mp (List.mergeSort_perm _ selKey)
  have hgreedy :
      selectGreedy 0 6000
          [(⟨1000, some 600, 0, 0, false, "silence", false, none, 50⟩ : Candidate)] [] =
        [⟨1000, some 600, 0, 0, false, "silence", false, none, 50⟩] := by
    have hcond : ∀ s ∈ ([] : List Candidate),
        (6000 : ℤ) ≤ |(⟨1000, some 600, 0, 0, false, "silence", false, none, 50⟩ :
          Candidate).insertion_ms - s.insertion_ms| := by
      intro s hs
      simp at hs
    simp [selectGreedy, hcond]
  unfold select_top
  dsimp only
  rw [hsort, hgreedy]
  simp

/-- C4 (amended, requiring `top_n ≥ 1`; for `top_n = 0` the code returns
one candidate): the Selector sorts by (score descending, insertion_ms
ascending), returns at most `top_n` candidates all drawn from the input,
the greedy phase output is always pairwise separated by at least
`min_separation_ms`, the result IS the greedy output whenever that phase
reached `top_n`, and otherwise the result is the backfill over the same
sorted order. -/
theorem select_top_amended :
    ∀ (cands : List Candidate) (topN : ℕ) (sep : ℤ), 1 ≤ topN →
      (select_top cands topN sep).length ≤ topN ∧
        (∀ x ∈ select_top cands topN sep, x ∈ cands) ∧
        (cands.mergeSort selKey).Pairwise (fun a b => selKey a b = true) ∧
        (cands.mergeSort selKey).Perm cands ∧
        (selectGreedy topN sep (cands.mergeSort selKey) []).Pairwise
          (fun a b => sep ≤ |a.insertion_ms - b.insertion_ms|) ∧
        (topN ≤ (selectGreedy topN sep (cands.mergeSort selKey) []).length →
          select_top cands topN sep = selectGreedy topN sep (cands.mergeSort selKey) []) ∧
        ((selectGreedy topN sep (cands.mergeSort selKey) []).length < topN →
          select_top cands topN sep =
            selectBackfill topN (cands.mergeSort selKey)
              (selectGreedy topN sep (cands.mergeSort selKey) [])) := by
  intro cands topN sep htop
  have hperm := List.mergeSort_perm cands selKey
  have hmemOrd : ∀ x ∈ cands.mergeSort selKey, x ∈ cands := by
    intro x hx
    exact hperm.mem_iff.mp hx
  have hgreedyMem : ∀ x ∈ selectGreedy topN sep (cands.mergeSort selKey) [], x ∈ cands :=
    selectGreedy_forall topN sep _ _ [] (by intro x hx; simp at hx) hmemOrd
  refine ⟨?_, ?_, ?_, hperm, ?_, ?_, ?_⟩
  · unfold select_top
    dsimp only
    by_cases hlt : (selectGreedy topN sep (cands.mergeSort selKey) []).length < topN
    · rw [if_pos hlt]
      exact selectBackfill_length_le topN _ _ hlt
    · rw [if_neg hlt]
      exact selectGreedy_length_le topN sep _ [] (by simpa using htop)
  · unfold select_top
    dsimp only
    by_cases hlt : (selectGreedy topN sep (cands.mergeSort selKey) []).length < topN
    · rw [if_pos hlt]
      exact selectBackfill_forall topN _ _ _ hgreedyMem hmemOrd
    · rw [if_neg hlt]
      exact hgreedyMem
  · exact List.sorted_mergeSort selKey_trans selKey_total cands
  · exact selectGreedy_pairwise topN sep _ [] (by simp)
  · intro hge
    unfold select_top
    dsimp only
    rw [if_neg (by omega)]
  · intro hlt
    unfold select_top
    dsimp only
    rw [if_pos hlt]

/-- C4 witness: the amended selector contract applied at a concrete
input with `top_n = 3`. -/
theorem select_top_amended_witness :
    (select_top [⟨1000, some 600, 0, 0, false, "silence", false, none, 50⟩]
      3 6000).length ≤ 3 :=
  (select_top_amended [⟨1000, some 600, 0, 0, false, "silence", false, none, 50⟩]
    3 6000 (by norm_num)).1

/-! ## Claim C5: the candidate generators always produce a candidate -/

theorem fallback_candidates_ne_nil (d : ℤ) : fallback_candidates d ≠ [] := by
  unfold fallback_candidates
  dsimp only
  split_ifs <;> simp
  exact ⟨0, by norm_num⟩

theorem podcastPadLoop_length_ge (rmsw : ℕ → ℕ → ℚ) :
    ∀ (l : List ℤ) (cands : List Candidate) (ex : List ℤ),
      cands.length ≤ (podcastPadLoop rmsw l cands ex).length := by
  intro l
  induction l with
  | nil => intro cands ex; simp [podcastPadLoop]
  | cons p rest ih =>
    intro cands ex
    simp only [podcastPadLoop]
    by_cases hmem : p ∈ ex
    · rw [if_pos hmem]; exact ih cands ex
    · rw [if_neg hmem]
      by_cases hlen : 12 ≤ (cands ++ [podcastFallbackCand rmsw p]).length
      · rw [if_pos hlen]; simp
      · rw [if_neg hlen]
        calc cands.length ≤ (cands ++ [podcastFallbackCand rmsw p]).length := by simp
          _ ≤ _ := ih _ _

theorem songPadLoop_length_ge (rmsw : ℕ → ℕ → ℚ) :
    ∀ (l : List ℤ) (cands : List Candidate) (ex : List ℤ),
      cands.length ≤ (songPadLoop rmsw l cands ex).length := by
  intro l
  induction l with
  | nil => intro cands ex; simp [songPadLoop]
  | cons p rest ih =>
    intro cands ex
    simp only [songPadLoop]
    by_cases hmem : p ∈ ex
    · rw [if_pos hmem]; exact ih cands ex
    · rw [if_neg hmem]
      by_cases hlen : 12 ≤ (cands ++ [songFallbackCand rmsw p]).length
      · rw [if_pos hlen]; simp
      · rw [if_neg hlen]
        calc cands.length ≤ (cands ++ [songFallbackCand rmsw p]).length := by simp
          _ ≤ _ := ih _ _

theorem podcastPadLoop_pos (rmsw : ℕ → ℕ → ℚ) (l : List ℤ) (hl : l ≠ []) :
    1 ≤ (podcastPadLoop rmsw l [] []).length := by
  cases l with
  | nil => exact absurd rfl hl
  | cons p rest =>
    simp only [podcastPadLoop]
    rw [if_neg (by simp)]
    by_cases h12 : 12 ≤ (([] : List Candidate) ++ [podcastFallbackCand rmsw p]).length
    · rw [if_pos h12]; simp
    · rw [if_neg h12]
      have h := podcastPadLoop_length_ge rmsw rest
        (([] : List Candidate) ++ [podcastFallbackCand rmsw p]) [p]
      simpa using h

theorem podcast_candidates_pos
    (silenceRanges : List (ℕ × ℕ)) (durationMs : ℤ) (rmsw : ℕ → ℕ → ℚ) :
    1 ≤ (podcast_candidates silenceRanges durationMs rmsw).length := by
  unfold podcast_candidates
  dsimp only
  have hmid : 1 ≤
      (if (silenceRanges.map (podcastSilenceCand rmsw)).length < 10 then
          podcastPadLoop rmsw (fallback_candidates durationMs)
            (silenceRanges.map (podcastSilenceCand rmsw))
            ((silenceRanges.map (podcastSilenceCand rmsw)).map (·.insertion_ms))
        else silenceRanges.map (podcastSilenceCand rmsw)).length := by
    cases silenceRanges with
    | nil =>
      simp only [List.map_nil, List.length_nil]
      rw [if_pos (by norm_num)]
      exact podcastPadLoop_pos rmsw _ (fallback_candidates_ne_nil durationMs)
    | cons r rs =>
      split_ifs with h10
      · calc 1 ≤ ((r :: rs).map (podcastSilenceCand rmsw)).length := by simp
          _ ≤ _ := podcastPadLoop_length_ge rmsw _ _ _
      · simp
  by_cases h30 : 30 <
      (if (silenceRanges.map (podcastSilenceCand rmsw)).length < 10 then
          podcastPadLoop rmsw (fallback_candidates durationMs)
            (silenceRanges.map (podcastSilenceCand rmsw))
            ((silenceRanges.map (podcastSilenceCand rmsw)).map (·.insertion_ms))
        else silenceRanges.map (podcastSilenceCand rmsw)).length
  · rw [if_pos h30]
    simp only [List.length_mergeSort, List.length_take]
    omega
  · rw [if_neg h30]
    exact hmid

theorem song_candidates_pos
    (songCandidatesMs beatTimesMs : List ℤ) (durationMs : ℤ) (rmsw : ℕ → ℕ → ℚ) :
    1 ≤ (song_candidates songCandidatesMs beatTimesMs durationMs rmsw).length := by
  unfold song_candidates
  dsimp only
  set cms := if songCandidatesMs.isEmpty then fallback_candidates durationMs
    else songCandidatesMs with hcms
  have hcms_ne : cms ≠ [] := by
    rw [hcms]
    split_ifs with hE
    · exact fallback_candidates_ne_nil durationMs
    · intro h
      simp [h] at hE
  set base := cms.map (songAnalysisCand rmsw beatTimesMs) with hb
  have hbase : 1 ≤ base.length := by
    rw [hb, List.length_map]
    exact List.length_pos.mpr hcms_ne
  set mid := if base.length < 10 then
      songPadLoop rmsw (fallback_candidates durationMs) base (base.map (·.insertion_ms))
    else base with hm
  have hmid : 1 ≤ mid.length := by
    rw [hm]
    by_cases h10 : base.length < 10
    · rw [if_pos h10]
      exact le_trans hbase (songPadLoop_length_ge rmsw _ _ _)
    · rw [if_neg h10]
      exact hbase
  by_cases h30 : 30 < mid.length
  · rw [if_pos h30]
    rw [List.length_take]
    omega
  · rw [if_neg h30]
    exact hmid

/-- C5: both candidate generators are total and return at least one
candidate on every input; on an empty (or unreadable-signal) recording —
no detected silences / no analysis candidates, duration 0, every RMS
window empty hence 0 — each returns exactly one candidate at time 0 with
all derived metrics zeroed. -/
theorem candidate_generator_total :
    (∀ (silenceRanges : List (ℕ × ℕ)) (durationMs : ℤ) (rmsw : ℕ → ℕ → ℚ),
        1 ≤ (podcast_candidates silenceRanges durationMs rmsw).length) ∧
      (∀ (songCandidatesMs beatTimesMs : List ℤ) (durationMs : ℤ)
          (rmsw : ℕ → ℕ → ℚ),
        1 ≤ (song_candidates songCandidatesMs beatTimesMs durationMs rmsw).length) ∧
      podcast_candidates [] 0 (fun _ _ => 0) =
        [⟨0, some 0, 0, 0, false, "fallback", false, none, 0⟩] ∧
      song_candidates [] [] 0 (fun _ _ => 0) =
        [⟨0, none, 0, 0, false, "energy", false, some 0, 0⟩] :=
  ⟨podcast_candidates_pos, song_candidates_pos, rfl, rfl⟩

/-! ## Claim C7: arbitration-response validation and fallback -/

/-- C7: a parsed arbitration response whose chosen index is out of range,
or whose `chosen_insertion_ms` does not equal the chosen candidate's
`insertion_ms`, is rejected: `select_best_insertion` returns the
heuristic scorer's choice, with no refined text, and the rationale (and
the debug `why_chosen`) record that and why the fallback occurred. -/
theorem select_best_insertion_rejects_invalid :
    ∀ (mode : String) (cands : List PayloadCand) (chosenIdx chosenMs : ℤ)
      (rat : String) (refined : Option String),
      ((chosenIdx < 0 ∨ (cands.length : ℤ) ≤ chosenIdx) →
        select_best_insertion mode cands (.parsed chosenIdx chosenMs rat refined) =
          llmFailedResult mode cands "LLM chose candidate index out of range.") ∧
        ((¬(chosenIdx < 0 ∨ (cands.length : ℤ) ≤ chosenIdx)) →
          (cands.getD chosenIdx.toNat default).insertion_ms ≠ chosenMs →
          select_best_insertion mode cands (.parsed chosenIdx chosenMs rat refined) =
            llmFailedResult mode cands "LLM insertion_ms does not match chosen candidate.") ∧
        (∀ msg : String,
          (llmFailedResult mode cands msg).chosen_candidate_index =
              ((choose_by_heuristic mode cands).1 : ℤ) ∧
            (llmFailedResult mode cands msg).chosen_insertion_ms =
              (choose_by_heuristic mode cands).2.1 ∧
            (llmFailedResult mode cands msg).refined_sponsor_text = none ∧
            (llmFailedResult mode cands msg).rationale =
              (choose_by_heuristic mode cands).2.2 ++ " (LLM failed: " ++ msg ++ ")" ∧
            (llmFailedResult mode cands msg).why_chosen =
              (llmFailedResult mode cands msg).rationale) := by
  intro mode cands chosenIdx chosenMs rat refined
  refine ⟨?_, ?_, ?_⟩
  · intro h
    unfold select_best_insertion
    dsimp only
    rw [if_pos h]
  · intro h hne
    unfold select_best_insertion
    dsimp only
    rw [if_neg h, if_pos hne]
  · intro msg
    exact ⟨rfl, rfl, rfl, rfl, rfl⟩

/-- C7 witness: both rejection paths fire on a concrete candidate list
(index 3 out of range for one candidate; insertion_ms 999 mismatching the
candidate's 2000). -/
theorem select_best_insertion_rejects_invalid_witness :
    select_best_insertion "podcast" [⟨2000, some 1, 0, 0, false, none, none⟩]
        (.parsed 3 2000 "r" none) =
      llmFailedResult "podcast" [⟨2000, some 1, 0, 0, false, none, none⟩]
        "LLM chose candidate index out of range." ∧
      select_best_insertion "podcast" [⟨2000, some 1, 0, 0, false, none, none⟩]
          (.parsed 0 999 "r" none) =
        llmFailedResult "podcast" [⟨2000, some 1, 0, 0, false, none, none⟩]
          "LLM insertion_ms does not match chosen candidate." :=
  ⟨(select_best_insertion_rejects_invalid "podcast"
      [⟨2000, some 1, 0, 0, false, none, none⟩] 3 2000 "r" none).1
        (by norm_num),
    (select_best_insertion_rejects_invalid "podcast"
      [⟨2000, some 1, 0, 0, false, none, none⟩] 0 999 "r" none).2.1
        (by norm_num) (by norm_num [List.getD])⟩

/-! ## Claim C8: pros/cons derivation -/

theorem prosPadTake_pos (l : List String) (g : String) :
    1 ≤ ((if l.length < 2 then l ++ [g] else l).take 3).length := by
  split_ifs with h <;> rw [List.length_take] <;> simp [List.length_append] <;> omega

theorem prosPadTake_two (l : List String) (g : String) (hl : 1 ≤ l.length) :
    2 ≤ ((if l.length < 2 then l ++ [g] else l).take 3).length := by
  split_ifs with h <;> rw [List.length_take] <;> simp [List.length_append] <;> omega

theorem consTake_pos (l : List String) (g : String) :
    1 ≤ (if l.isEmpty then [g] else l.take 2).length := by
  split_ifs with h
  · simp
  · rw [List.length_take]
    have hne : l ≠ [] := by
      intro hnil
      simp [hnil] at h
    have := List.length_pos.mpr hne
    omega

/-- C8 counterexample: a spoken-word candidate with no detected silence,
no sentence boundary and high RMS on both sides qualifies for zero
feature-specific pros; the single generic fallback phrase then yields a
pros list of length 1, not the "at least 2 pros" the claim asserts. -/
theorem pros_cons_counterexample :
    (podcast_pros_cons ⟨6000, some 0, 1, 1, false, "", false, none, 0⟩ 20000).1.length = 1 ∧
      ¬(2 ≤ (podcast_pros_cons ⟨6000, some 0, 1, 1, false, "", false, none, 0⟩
        20000).1.length) := by
  have hq : quietness_from_rms 1 = 0 := by
    unfold quietness_from_rms pclamp
    norm_num [min_def, max_def]
  have h : (podcast_pros_cons ⟨6000, some 0, 1, 1, false, "", false, none, 0⟩ 20000).1 =
      ["Balanced pause with manageable energy shift"] := by
    unfold podcast_pros_cons
    norm_num [hq]
  rw [h]
  norm_num

/-- C8 (amended): both pros/cons derivations always return at least 1
pro and at least 1 con; they return at least 2 pros whenever at least
one feature-specific pro qualifies (the generic fallback phrase brings
the count to 2 only in that case — with zero qualifying pros the output
is the single fallback phrase). -/
theorem pros_cons_amended :
    ∀ (c : Candidate) (d : ℤ),
      (1 ≤ (podcast_pros_cons c d).1.length ∧
        1 ≤ (podcast_pros_cons c d).2.1.length ∧
        1 ≤ (song_pros_cons c d).1.length ∧
        1 ≤ (song_pros_cons c d).2.1.length) ∧
      ((500 ≤ c.silence_ms.getD 0 ∨ c.boundary = true ∨
          7/10 ≤ quietness_from_rms c.rms_before ∨
          7/10 ≤ quietness_from_rms c.rms_after) →
        2 ≤ (podcast_pros_cons c d).1.length) ∧
      ((c.beat_aligned = true ∨
          7/10 ≤ quietness_from_rms (c.rms_center.getD 0) ∨
          3/5 ≤ quietness_from_rms c.rms_after) →
        2 ≤ (song_pros_cons c d).1.length) := by
  intro c d
  refine ⟨⟨?_, ?_, ?_, ?_⟩, ?_, ?_⟩
  · unfold podcast_pros_cons
    dsimp only
    exact prosPadTake_pos _ _
  · unfold podcast_pros_cons
    dsimp only
    exact consTake_pos _ _
  · unfold song_pros_cons
    dsimp only
    exact prosPadTake_pos _ _
  · unfold song_pros_cons
    dsimp only
    exact consTake_pos _ _
  · intro hqual
    unfold podcast_pros_cons
    dsimp only
    apply prosPadTake_two
    simp only [List.length_append]
    rcases hqual with hs | hb | hqb | hqa
    · have h1 : 1 ≤ (if 800 ≤ c.silence_ms.getD 0 then
          ["Natural pause detected (~" ++ toString (c.silence_ms.getD 0) ++ "ms silence)"]
        else if 500 ≤ c.silence_ms.getD 0 then
          ["Short pause detected (~" ++ toString (c.silence_ms.getD 0) ++ "ms silence)"]
        else []).length := by
        by_cases h8 : 800 ≤ c.silence_ms.getD 0
        · rw [if_pos h8]; simp
        · rw [if_neg h8, if_pos hs]; simp
      omega
    · have h1 : 1 ≤ (if c.boundary = true then
          ["Likely sentence boundary or topic shift"] else []).length := by
        rw [if_pos hb]; simp
      omega
    · have h1 : 1 ≤ (if 7/10 ≤ quietness_from_rms c.rms_before then
          ["Low background energy before insert"] else []).length := by
        rw [if_pos hqb]; simp
      omega
    · have h1 : 1 ≤ (if 7/10 ≤ quietness_from_rms c.rms_after then
          ["Low background energy after insert"] else []).length := by
        rw [if_pos hqa]; simp
      omega
  · intro hqual
    unfold song_pros_cons
    dsimp only
    apply prosPadTake_two
    simp only [List.length_append]
    rcases hqual with hb | hv | hqa
    · have h1 : 1 ≤ (if c.beat_aligned = true then
          ["Beat-aligned insertion point"] else []).length := by
        rw [if_pos hb]; simp
      omega
    · have h1 : 1 ≤ (if 7/10 ≤ quietness_from_rms (c.rms_center.getD 0) then
          ["Low-energy valley (smooth entry)"] else []).length := by
        rw [if_pos hv]; simp
      omega
    · have h1 : 1 ≤ (if 3/5 ≤ quietness_from_rms c.rms_after then
          ["Stable energy after insert"] else []).length := by
        rw [if_pos hqa]; simp
      omega

/-- C8 witness: the amended pros/cons counts applied at a concrete
candidate whose sentence-boundary pro qualifies. -/
theorem pros_cons_amended_witness :
    2 ≤ (podcast_pros_cons ⟨10000, some 900, 1, 1, false, "", true, none, 0⟩
      30000).1.length :=
  (pros_cons_amended ⟨10000, some 900, 1, 1, false, "", true, none, 0⟩ 30000).2.1
    (Or.inl (by norm_num))

end Slotify
